import Mathlib

set_option maxRecDepth 8000
set_option maxHeartbeats 1000000

/- Verification of the edgar-crawler extraction core and the MacroDiscl
   calculator.  Characters are modelled by their Unicode code points (Nat);
   strings are lists of code points, and the model covers the ASCII plane on
   which the source's regular expressions and dictionaries operate. -/

namespace Edgar

/-- Code points of a string literal; transcribes the source's string constants. -/
def strL (s : String) : List Nat := s.data.map Char.toNat

/-- Python regex whitespace class (ASCII plane): space, TAB, LF, VT, FF, CR. -/
def wsChar (c : Nat) : Bool :=
  decide (c = 32 ∨ c = 9 ∨ c = 10 ∨ c = 11 ∨ c = 12 ∨ c = 13)

/-- Python regex word class (ASCII plane): digits, letters, underscore. -/
def wordChar (c : Nat) : Bool :=
  decide ((48 ≤ c ∧ c ≤ 57) ∨ (65 ≤ c ∧ c ≤ 90) ∨ (97 ≤ c ∧ c ≤ 122) ∨ c = 95)

/-- Python str.lower on the ASCII plane. -/
def lowerChar (c : Nat) : Nat := if 65 ≤ c ∧ c ≤ 90 then c + 32 else c

theorem lowerChar_not_upper (c : Nat) : ¬(65 ≤ lowerChar c ∧ lowerChar c ≤ 90) := by
  unfold lowerChar; split <;> omega

theorem lowerChar_idem (c : Nat) : lowerChar (lowerChar c) = lowerChar c := by
  show (if 65 ≤ lowerChar c ∧ lowerChar c ≤ 90 then lowerChar c + 32 else lowerChar c)
      = lowerChar c
  rw [if_neg (lowerChar_not_upper c)]

theorem word_not_ws (c : Nat) (h : wordChar c = true) : wsChar c = false := by
  simp only [wordChar, decide_eq_true_eq] at h
  simp only [wsChar, decide_eq_false_iff_not]
  omega

/- ===== clean_text_for_matching (src/calculate_macro_discl.py, lines 134-158).
   Steps: lowercase; replace every character outside the regex classes
   word/whitespace by a space; collapse whitespace runs to single spaces;
   strip leading and trailing whitespace. ===== -/

/-- The substitution re.sub applied pointwise by the pattern replacing every
character that is neither a word character nor whitespace with a space. -/
def subNonWord (c : Nat) : Nat :=
  if wordChar c = false ∧ wsChar c = false then 32 else c

/-- The substitution collapsing every whitespace run to a single space; the
Bool records whether the previous character was inside a whitespace run. -/
def collapseWs : Bool → List Nat → List Nat
  | _, [] => []
  | prevWs, c :: rest =>
    if wsChar c then
      if prevWs then collapseWs true rest else 32 :: collapseWs true rest
    else
      c :: collapseWs false rest

def stripLeft (l : List Nat) : List Nat := l.dropWhile wsChar

def stripRight (l : List Nat) : List Nat := (l.reverse.dropWhile wsChar).reverse

/-- Python str.strip. -/
def pyStrip (l : List Nat) : List Nat := stripRight (stripLeft l)

/-- clean_text_for_matching from src/calculate_macro_discl.py. -/
def clean_text_for_matching (s : List Nat) : List Nat :=
  pyStrip (collapseWs false ((s.map lowerChar).map subNonWord))

/-- No two adjacent whitespace characters. -/
def NoWsRun (l : List Nat) : Prop :=
  List.Chain' (fun a b => ¬(wsChar a = true ∧ wsChar b = true)) l

theorem mapped_good (s : List Nat) :
    ∀ c ∈ (s.map lowerChar).map subNonWord,
      lowerChar c = c ∧ (wordChar c = true ∨ wsChar c = true) := by
  intro c hc
  rcases List.mem_map.mp hc with ⟨d, hd, rfl⟩
  rcases List.mem_map.mp hd with ⟨e, _, rfl⟩
  unfold subNonWord
  split
  · exact ⟨rfl, Or.inr rfl⟩
  · next h =>
    refine ⟨lowerChar_idem e, ?_⟩
    by_cases hw : wordChar (lowerChar e) = true
    · exact Or.inl hw
    · by_cases hs : wsChar (lowerChar e) = true
      · exact Or.inr hs
      · exact absurd ⟨by simpa using hw, by simpa using hs⟩ h

theorem mem_collapseWs :
    ∀ (l : List Nat) (b : Bool) (c : Nat), c ∈ collapseWs b l →
      c = 32 ∨ (c ∈ l ∧ wsChar c = false) := by
  intro l
  induction l with
  | nil => intro b c h; simp [collapseWs] at h
  | cons a t ih =>
    intro b c h
    unfold collapseWs at h
    by_cases ha : wsChar a = true
    · rw [if_pos ha] at h
      cases b with
      | true =>
        rcases ih true c h with h32 | ⟨hm, hw⟩
        · exact Or.inl h32
        · exact Or.inr ⟨List.mem_cons_of_mem a hm, hw⟩
      | false =>
        rcases List.mem_cons.mp h with rfl | h'
        · exact Or.inl rfl
        · rcases ih true c h' with h32 | ⟨hm, hw⟩
          · exact Or.inl h32
          · exact Or.inr ⟨List.mem_cons_of_mem a hm, hw⟩
    · rw [if_neg ha] at h
      rcases List.mem_cons.mp h with rfl | h'
      · exact Or.inr ⟨List.mem_cons_self _ _, by simpa using ha⟩
      · rcases ih false c h' with h32 | ⟨hm, hw⟩
        · exact Or.inl h32
        · exact Or.inr ⟨List.mem_cons_of_mem a hm, hw⟩

theorem collapseWs_chain (l : List Nat) :
    (∀ b, NoWsRun (collapseWs b l)) ∧
    (∀ c, (collapseWs true l).head? = some c → wsChar c = false) := by
  induction l with
  | nil => exact ⟨fun _ => List.chain'_nil, fun c h => by simp [collapseWs] at h⟩
  | cons a t ih =>
    by_cases ha : wsChar a = true
    · constructor
      · intro b
        cases b with
        | true =>
          show NoWsRun (collapseWs true (a :: t))
          unfold collapseWs
          rw [if_pos ha]
          exact ih.1 true
        | false =>
          show NoWsRun (collapseWs false (a :: t))
          unfold collapseWs
          rw [if_pos ha]
          refine List.chain'_cons'.mpr ⟨?_, ih.1 true⟩
          intro y hy
          have hyws := ih.2 y hy
          intro hcontra
          rw [hcontra.2] at hyws
          exact absurd hyws (by decide)
      · intro c h
        unfold collapseWs at h
        rw [if_pos ha] at h
        exact ih.2 c h
    · constructor
      · intro b
        show NoWsRun (collapseWs b (a :: t))
        unfold collapseWs
        rw [if_neg ha]
        refine List.chain'_cons'.mpr ⟨?_, ih.1 false⟩
        intro y _
        intro hcontra
        exact ha hcontra.1
      · intro c h
        unfold collapseWs at h
        rw [if_neg ha] at h
        simp only [List.head?_cons, Option.some.injEq] at h
        rw [← h]
        simpa using ha

theorem collapseWs_fix (l : List Nat)
    (hchars : ∀ c ∈ l, wordChar c = true ∨ c = 32) (hrun : NoWsRun l) :
    collapseWs false l = l ∧
    ((∀ c, l.head? = some c → wsChar c = false) → collapseWs true l = l) := by
  induction l with
  | nil => exact ⟨rfl, fun _ => rfl⟩
  | cons a t ih =>
    have hheadrel := (List.chain'_cons'.mp hrun).1
    have htail := (List.chain'_cons'.mp hrun).2
    have ihgoal := ih (fun c hc => hchars c (List.mem_cons_of_mem a hc)) htail
    by_cases ha : wsChar a = true
    · have hth : ∀ c, t.head? = some c → wsChar c = false := by
        intro c hc
        have := hheadrel c (by rw [hc]; rfl)
        by_cases hcw : wsChar c = true
        · exact absurd ⟨ha, hcw⟩ this
        · simpa using hcw
      have ha32 : a = 32 := by
        rcases hchars a (List.mem_cons_self _ _) with hw | h32
        · exact absurd (word_not_ws a hw) (by rw [ha]; decide)
        · exact h32
      constructor
      · show collapseWs false (a :: t) = a :: t
        unfold collapseWs
        rw [if_pos ha]
        simp only [Bool.false_eq_true, if_false]
        rw [ihgoal.2 hth, ha32]
      · intro hhead
        have := hhead a rfl
        rw [ha] at this
        exact absurd this (by decide)
    · constructor
      · show collapseWs false (a :: t) = a :: t
        unfold collapseWs
        rw [if_neg ha, ihgoal.1]
      · intro _
        show collapseWs true (a :: t) = a :: t
        unfold collapseWs
        rw [if_neg ha, ihgoal.1]

/- Helper lemmas about dropWhile, strip and reverse. -/

theorem mem_dropWhile (p : Nat → Bool) :
    ∀ (l : List Nat) (c : Nat), c ∈ l.dropWhile p → c ∈ l := by
  intro l
  induction l with
  | nil => intro c h; simp at h
  | cons a t ih =>
    intro c h
    rw [List.dropWhile_cons] at h
    by_cases ha : p a = true
    · rw [if_pos ha] at h
      exact List.mem_cons_of_mem a (ih c h)
    · rw [if_neg ha] at h
      exact h

theorem chain'_dropWhile {R : Nat → Nat → Prop} (p : Nat → Bool) :
    ∀ (l : List Nat), List.Chain' R l → List.Chain' R (l.dropWhile p) := by
  intro l
  induction l with
  | nil => intro h; exact h
  | cons a t ih =>
    intro h
    rw [List.dropWhile_cons]
    by_cases ha : p a = true
    · rw [if_pos ha]
      exact ih (List.chain'_cons'.mp h).2
    · rw [if_neg ha]
      exact h

theorem head?_dropWhile (p : Nat → Bool) :
    ∀ (l : List Nat) (c : Nat), (l.dropWhile p).head? = some c → p c = false := by
  intro l
  induction l with
  | nil => intro c h; simp [List.dropWhile] at h
  | cons a t ih =>
    intro c h
    rw [List.dropWhile_cons] at h
    by_cases ha : p a = true
    · rw [if_pos ha] at h
      exact ih c h
    · rw [if_neg ha] at h
      simp only [List.head?_cons, Option.some.injEq] at h
      rw [← h]
      simpa using ha

theorem dropWhile_fix (p : Nat → Bool) (l : List Nat)
    (h : ∀ c, l.head? = some c → p c = false) : l.dropWhile p = l := by
  cases l with
  | nil => rfl
  | cons a t =>
    rw [List.dropWhile_cons, if_neg]
    rw [h a rfl]
    simp

theorem dropWhile_suffix (p : Nat → Bool) :
    ∀ (l : List Nat), ∃ t, t ++ l.dropWhile p = l := by
  intro l
  induction l with
  | nil => exact ⟨[], rfl⟩
  | cons a t ih =>
    rw [List.dropWhile_cons]
    by_cases ha : p a = true
    · rw [if_pos ha]
      rcases ih with ⟨u, hu⟩
      exact ⟨a :: u, by rw [List.cons_append, hu]⟩
    · rw [if_neg ha]
      exact ⟨[], rfl⟩

theorem mem_stripRight (l : List Nat) (c : Nat) (h : c ∈ stripRight l) : c ∈ l := by
  unfold stripRight at h
  rw [List.mem_reverse] at h
  have := mem_dropWhile wsChar l.reverse c h
  rwa [List.mem_reverse] at this

theorem mem_pyStrip (l : List Nat) (c : Nat) (h : c ∈ pyStrip l) : c ∈ l :=
  mem_dropWhile wsChar l c (mem_stripRight (stripLeft l) c h)

theorem noWsRun_stripRight (l : List Nat) (h : NoWsRun l) : NoWsRun (stripRight l) := by
  unfold NoWsRun stripRight
  rw [List.chain'_reverse]
  have h' : List.Chain' (fun a b => ¬(wsChar a = true ∧ wsChar b = true)) l.reverse := by
    rw [List.chain'_reverse]
    exact List.Chain'.imp (fun a b hab hcon => hab ⟨hcon.2, hcon.1⟩) h
  exact List.Chain'.imp (fun a b hab hcon => hab ⟨hcon.2, hcon.1⟩)
    (chain'_dropWhile wsChar l.reverse h')

theorem noWsRun_pyStrip (l : List Nat) (h : NoWsRun l) : NoWsRun (pyStrip l) :=
  noWsRun_stripRight (stripLeft l) (chain'_dropWhile wsChar l h)

theorem head?_stripRight (l : List Nat) (c : Nat)
    (h : (stripRight l).head? = some c) : l.head? = some c := by
  rcases dropWhile_suffix wsChar l.reverse with ⟨t, ht⟩
  have hl : l = stripRight l ++ t.reverse := by
    have := congrArg List.reverse ht
    rw [List.reverse_append, List.reverse_reverse] at this
    exact this.symm
  rw [hl]
  cases hsr : stripRight l with
  | nil => rw [hsr] at h; simp at h
  | cons x xs =>
    rw [hsr] at h
    simp only [List.head?_cons, Option.some.injEq] at h
    simp [h]

theorem getLast?_stripRight_ws (l : List Nat) (c : Nat)
    (h : (stripRight l).getLast? = some c) : wsChar c = false := by
  unfold stripRight at h
  rw [List.getLast?_reverse] at h
  exact head?_dropWhile wsChar l.reverse c h

theorem stripRight_fix (l : List Nat)
    (h : ∀ c, l.getLast? = some c → wsChar c = false) : stripRight l = l := by
  unfold stripRight
  rw [dropWhile_fix wsChar l.reverse, List.reverse_reverse]
  intro c hc
  rw [List.head?_reverse] at hc
  exact h c hc

theorem clean_chars (s : List Nat) :
    ∀ c ∈ clean_text_for_matching s, lowerChar c = c ∧ (wordChar c = true ∨ c = 32) := by
  intro c hc
  unfold clean_text_for_matching at hc
  have hc' := mem_pyStrip _ c hc
  rcases mem_collapseWs _ false c hc' with h32 | ⟨hm, hw⟩
  · subst h32
    exact ⟨rfl, Or.inr rfl⟩
  · rcases mapped_good s c hm with ⟨hl, hwl⟩
    rcases hwl with hword | hws
    · exact ⟨hl, Or.inl hword⟩
    · rw [hws] at hw
      exact absurd hw (by decide)

theorem clean_noWsRun (s : List Nat) : NoWsRun (clean_text_for_matching s) :=
  noWsRun_pyStrip _ ((collapseWs_chain _).1 false)

theorem clean_head_ws (s : List Nat) :
    ∀ c, (clean_text_for_matching s).head? = some c → wsChar c = false := by
  intro c h
  unfold clean_text_for_matching pyStrip stripLeft at h
  exact head?_dropWhile wsChar _ c (head?_stripRight _ c h)

theorem clean_last_ws (s : List Nat) :
    ∀ c, (clean_text_for_matching s).getLast? = some c → wsChar c = false := by
  intro c h
  unfold clean_text_for_matching pyStrip at h
  exact getLast?_stripRight_ws _ c h

theorem map_self_of_fix {f : Nat → Nat} :
    ∀ (l : List Nat), (∀ c ∈ l, f c = c) → l.map f = l := by
  intro l
  induction l with
  | nil => intro _; rfl
  | cons a t ih =>
    intro h
    rw [List.map_cons, h a (List.mem_cons_self _ _),
      ih (fun c hc => h c (List.mem_cons_of_mem a hc))]

theorem subNonWord_fix (c : Nat) (h : wordChar c = true ∨ c = 32) :
    subNonWord c = c := by
  unfold subNonWord
  rw [if_neg]
  rcases h with hw | h32
  · intro hcon
    rw [hw] at hcon
    exact absurd hcon.1 (by decide)
  · intro hcon
    subst h32
    exact absurd hcon.2 (by decide)

theorem clean_idem (s : List Nat) :
    clean_text_for_matching (clean_text_for_matching s) = clean_text_for_matching s := by
  set t := clean_text_for_matching s with ht
  have hchars := clean_chars s
  rw [← ht] at hchars
  have h1 : t.map lowerChar = t := map_self_of_fix t (fun c hc => (hchars c hc).1)
  have h2 : t.map subNonWord = t :=
    map_self_of_fix t (fun c hc => subNonWord_fix c (hchars c hc).2)
  have h3 : collapseWs false t = t :=
    (collapseWs_fix t (fun c hc => (hchars c hc).2) (by rw [ht]; exact clean_noWsRun s)).1
  have h4 : stripLeft t = t :=
    dropWhile_fix wsChar t (by rw [ht]; exact clean_head_ws s)
  have h5 : stripRight t = t := stripRight_fix t (by rw [ht]; exact clean_last_ws s)
  show clean_text_for_matching t = t
  unfold clean_text_for_matching pyStrip
  rw [h1, h2, h3]
  show stripRight (stripLeft t) = t
  rw [h4, h5]

/-- Claim C10: clean_text_for_matching is idempotent; its output is lowercase,
contains no characters outside word characters and spaces, has no two
consecutive spaces, and has no leading or trailing whitespace. -/
theorem C10_clean_text_normal (s : List Nat) :
    clean_text_for_matching (clean_text_for_matching s) = clean_text_for_matching s ∧
    (∀ c ∈ clean_text_for_matching s, lowerChar c = c) ∧
    (∀ c ∈ clean_text_for_matching s, wordChar c = true ∨ c = 32) ∧
    List.Chain' (fun a b => ¬(a = 32 ∧ b = 32)) (clean_text_for_matching s) ∧
    (∀ c, (clean_text_for_matching s).head? = some c → wsChar c = false) ∧
    (∀ c, (clean_text_for_matching s).getLast? = some c → wsChar c = false) := by
  refine ⟨clean_idem s, fun c hc => (clean_chars s c hc).1,
    fun c hc => (clean_chars s c hc).2, ?_, clean_head_ws s, clean_last_ws s⟩
  refine List.Chain'.imp ?_ (clean_noWsRun s)
  intro a b hab hcon
  exact hab ⟨by rw [hcon.1]; decide, by rw [hcon.2]; decide⟩

theorem C10_witness :
    clean_text_for_matching (clean_text_for_matching (strL " Hello,  World  ")) =
      clean_text_for_matching (strL " Hello,  World  ") ∧
    lowerChar 104 = 104 ∧ (wordChar 104 = true ∨ (104 : Nat) = 32) ∧
    wsChar 104 = false ∧ wsChar 100 = false :=
  ⟨(C10_clean_text_normal (strL " Hello,  World  ")).1,
   (C10_clean_text_normal (strL " Hello,  World  ")).2.1 104 (by decide),
   (C10_clean_text_normal (strL " Hello,  World  ")).2.2.1 104 (by decide),
   (C10_clean_text_normal (strL " Hello,  World  ")).2.2.2.2.1 104 (by decide),
   (C10_clean_text_normal (strL " Hello,  World  ")).2.2.2.2.2 100 (by decide)⟩

/- ===== Word and macro-term counting (src/calculate_macro_discl.py). ===== -/

/-- Python str.split word counting: number of maximal non-whitespace runs.
The Bool records whether the scan is inside a word. -/
def count_words_go : Bool → List Nat → Nat
  | _, [] => 0
  | inWord, c :: rest =>
    if wsChar c then count_words_go false rest
    else (if inWord then 0 else 1) + count_words_go true rest

/-- count_words from src/calculate_macro_discl.py: len(text.split). -/
def count_words (s : List Nat) : Nat := count_words_go false s

/-- Number of non-overlapping occurrences of pat, scanning left to right:
the count returned by re.findall on an escaped pattern. -/
def countSubstr (pat : List Nat) : List Nat → Nat
  | [] => 0
  | c :: rest =>
    if h : pat ≠ [] ∧ pat.isPrefixOf (c :: rest) then
      1 + countSubstr pat ((c :: rest).drop pat.length)
    else
      countSubstr pat rest
termination_by l => l.length
decreasing_by
  · simp only [List.length_drop, List.length_cons]
    have : 0 < pat.length := List.length_pos.mpr h.1
    omega
  · simp only [List.length_cons]
    omega

/-- A word-boundary-delimited match of pat at position i of s. -/
def boundedAt (pat s : List Nat) (i : Nat) : Bool :=
  (!(pat.isEmpty)) && pat.isPrefixOf (s.drop i) &&
  (decide (i = 0) || !(wordChar (s.getD (i - 1) 32))) &&
  (match (s.drop (i + pat.length)).head? with
   | some d => !(wordChar d)
   | _ => true)

/-- Count of word-bounded occurrences of pat in s.  The dictionary terms this
is applied to consist of word characters only, so two boundary-valid matches
can never overlap and the position count equals the re.findall count. -/
def countBounded (pat s : List Nat) : Nat :=
  ((List.range s.length).filter (boundedAt pat s)).length

/-- EXACT_UNIGRAMS from src/calculate_macro_discl.py (lines 64-69). -/
def EXACT_UNIGRAMS : List (List Nat) :=
  [strL "macro", strL "macroeconomic", strL "macroeconomics", strL "macroeconomy",
   strL "import", strL "importing", strL "imported",
   strL "export", strL "exporting", strL "exported",
   strL "gdp", strL "gnp", strL "fed"]

/-- SUBSTRING_UNIGRAMS from src/calculate_macro_discl.py (lines 72-74). -/
def SUBSTRING_UNIGRAMS : List (List Nat) :=
  [strL "inflation", strL "deflation", strL "recession", strL "currency"]

/-- BIGRAMS from src/calculate_macro_discl.py (lines 77-95). -/
def BIGRAMS : List (List Nat) :=
  [strL "economic condition", strL "economic environment", strL "economic downturn",
   strL "economic factor", strL "economic trend", strL "economic instability",
   strL "economic growth", strL "economic activity", strL "economic development",
   strL "economic slowdown", strL "economic uncertainty", strL "economic recovery",
   strL "economic climate", strL "economic data", strL "economic cycle",
   strL "economic crisis", strL "economic indicator", strL "economic output",
   strL "economic expansion",
   strL "capital market", strL "credit market", strL "global market",
   strL "international market", strL "exchange market", strL "emerging market",
   strL "bear market", strL "bull market", strL "market risk", strL "credit risk",
   strL "global risk", strL "international risk", strL "exchange risk",
   strL "economic risk",
   strL "global economy", strL "international economy", strL "emerging economy",
   strL "general economy", strL "foreign exchange", strL "foreign investor",
   strL "foreign investment", strL "real estate", strL "real property",
   strL "real growth", strL "real rate", strL "federal reserve",
   strL "central bank", strL "gross domestic", strL "gross national",
   strL "monetary policy", strL "fiscal policy", strL "interest rate",
   strL "discount rate", strL "business cycle", strL "global trade"]

/-- count_macro_terms from src/calculate_macro_discl.py: total count plus the
breakdown (exact_unigrams, substring_unigrams, bigrams). -/
def count_macro_terms (text : List Nat) : Nat × (Nat × Nat × Nat) :=
  let e := (EXACT_UNIGRAMS.map (fun t => countBounded t text)).sum
  let su := (SUBSTRING_UNIGRAMS.map (fun t => countSubstr t text)).sum
  let bi := (BIGRAMS.map (fun t => countSubstr t text)).sum
  (e + su + bi, (e, su, bi))

/-- Result record of calculate_macro_discl.  The float score is modelled as an
exact rational; the final round-to-4-decimals of the source is a float
operation and does not affect the claims under verification. -/
structure MacroDisclResult where
  total_words : Nat
  macro_count : Nat
  macro_discl : ℚ
  status : String
  breakdown : Option (Nat × Nat × Nat)
deriving DecidableEq

/-- calculate_macro_discl from src/calculate_macro_discl.py (lines 216-283),
taking as input the text already cleaned of markup by the external
BeautifulSoup step (clean_html_and_tables); the filename bookkeeping and the
file-read error handler are I/O concerns outside the model. -/
def calculate_macro_discl (cleaned_text : List Nat) : MacroDisclResult :=
  if count_words (clean_text_for_matching cleaned_text) = 0 then
    ⟨0, 0, 0, "empty_file", Option.none⟩
  else
    ⟨count_words (clean_text_for_matching cleaned_text),
     (count_macro_terms (clean_text_for_matching cleaned_text)).1,
     ((count_macro_terms (clean_text_for_matching cleaned_text)).1 : ℚ) /
       (count_words (clean_text_for_matching cleaned_text) : ℚ) * 1000,
     "success", some (count_macro_terms (clean_text_for_matching cleaned_text)).2⟩

/-- Claim C9: when the cleaned and normalized text has zero words,
calculate_macro_discl returns total_words 0, macro_count 0, macro_discl 0 and
status empty_file without reaching the division; on the success path the
divisor total_words is strictly positive. -/
theorem C9_zero_word_guard (cleaned_text : List Nat) :
    (count_words (clean_text_for_matching cleaned_text) = 0 →
      calculate_macro_discl cleaned_text = ⟨0, 0, 0, "empty_file", Option.none⟩) ∧
    ((calculate_macro_discl cleaned_text).status = "success" →
      0 < (calculate_macro_discl cleaned_text).total_words) := by
  constructor
  · intro h
    unfold calculate_macro_discl
    rw [if_pos h]
  · intro h
    unfold calculate_macro_discl at h ⊢
    by_cases h0 : count_words (clean_text_for_matching cleaned_text) = 0
    · rw [if_pos h0] at h
      exact absurd h (by decide)
    · rw [if_neg h0]
      exact Nat.pos_of_ne_zero h0

theorem C9_zero_word_guard_witness :
    calculate_macro_discl (strL "") = ⟨0, 0, 0, "empty_file", Option.none⟩ ∧
    0 < (calculate_macro_discl (strL "inflation data")).total_words :=
  ⟨(C9_zero_word_guard (strL "")).1 (by decide),
   (C9_zero_word_guard (strL "inflation data")).2 (by decide)⟩

/- ===== MonetaryAmountParser (ExtractItems.extract_monetary_amounts).
   Modelled from the spec:  extract_items.py is not in the sources, only its
   tests and callers; spec section 4.5 gives the pattern (optional currency
   symbol, numeric literal with optional thousands separators and decimals,
   optional scale word thousand/million/billion, optional enclosing
   parentheses signifying negation), and src/tests/test_extract_items.py
   (test_special_items_extraction) fixes the value convention: the returned
   value is the signed numeric literal, with the scale reported separately. -/

def isDigit (c : Nat) : Bool := decide (48 ≤ c ∧ c ≤ 57)

def isDigitOrComma (c : Nat) : Bool := isDigit c || decide (c = 44)

/-- Numeric value of a list of decimal digit code points. -/
def digitsVal (ds : List Nat) : Nat := ds.foldl (fun a d => 10 * a + (d - 48)) 0

inductive Scale where
  | none
  | thousand
  | million
  | billion
deriving DecidableEq

/-- The scale multiplier table of spec section 4.5. -/
def scaleMultiplier : Scale → ℚ
  | Scale.none => 1
  | Scale.thousand => 1000
  | Scale.million => 1000000
  | Scale.billion => 1000000000

/-- One parsed amount match: parenthetical flag, integer and fractional digit
strings of the numeric literal, scale word, and total matched length. -/
structure ParsedAmount where
  paren : Bool
  intDigits : List Nat
  fracDigits : List Nat
  scale : Scale
  len : Nat
deriving DecidableEq

/-- The numeric literal of a match, e.g. 125.3 for digits "125" and "3". -/
def litOf (p : ParsedAmount) : ℚ :=
  (digitsVal p.intDigits : ℚ) + (digitsVal p.fracDigits : ℚ) / (10 : ℚ) ^ p.fracDigits.length

/-- The value carried by the returned record: the literal, negated for a
parenthetical match (standard financial-statement convention). -/
def amountValue (p : ParsedAmount) : ℚ := if p.paren then -(litOf p) else litOf p

/-- Case-insensitive match of the lowercase word w at the head of s. -/
def matchWordCI (w s : List Nat) : Bool := (s.take w.length).map lowerChar == w

/-- Close the optional parenthesis: a match opened with a parenthesis must
find its closing parenthesis or the candidate fails. -/
def finishParen (paren : Bool) (ids fds : List Nat) (sc : Scale) (s : List Nat)
    (n : Nat) : Option ParsedAmount :=
  if paren then
    match s.head? with
    | some 41 => some ⟨true, ids, fds, sc, n + 1⟩
    | _ => Option.none
  else some ⟨false, ids, fds, sc, n⟩

/-- Try to parse one amount starting at the head of s. -/
def parseAmountAt (s : List Nat) : Option ParsedAmount :=
  let paren : Bool := s.head? == some 40
  let n1 := if paren then 1 else 0
  let s1 := if paren then s.drop 1 else s
  let dollar : Bool := s1.head? == some 36
  let n2 := n1 + (if dollar then 1 else 0)
  let s2 := if dollar then s1.drop 1 else s1
  match s2.head? with
  | some c =>
    if isDigit c then
      let ip := s2.takeWhile isDigitOrComma
      let s3 := s2.drop ip.length
      let n3 := n2 + ip.length
      let fp := if s3.head? == some 46 then (s3.drop 1).takeWhile isDigit else []
      let s4 := if fp.isEmpty then s3 else s3.drop (1 + fp.length)
      let n4 := if fp.isEmpty then n3 else n3 + 1 + fp.length
      let sp := s4.takeWhile (fun d => d == 32)
      let s5 := s4.drop sp.length
      if matchWordCI (strL "thousand") s5 then
        finishParen paren (ip.filter isDigit) fp Scale.thousand (s5.drop 8)
          (n4 + sp.length + 8)
      else if matchWordCI (strL "million") s5 then
        finishParen paren (ip.filter isDigit) fp Scale.million (s5.drop 7)
          (n4 + sp.length + 7)
      else if matchWordCI (strL "billion") s5 then
        finishParen paren (ip.filter isDigit) fp Scale.billion (s5.drop 7)
          (n4 + sp.length + 7)
      else
        finishParen paren (ip.filter isDigit) fp Scale.none s4 n4
    else Option.none
  | _ => Option.none

/-- An amount record of the parser output: raw matched text, value, scale. -/
structure AmountRecord where
  raw_text : List Nat
  value : ℚ
  scale : Scale
deriving DecidableEq

/-- Left-to-right scan collecting all non-overlapping amount matches with
their raw matched text, in document order.  Structural recursion on a fuel
bounded by the text length; every step consumes at least one character, so
the fuel never runs out before the text does. -/
def scanAmountsGo : Nat → List Nat → List (List Nat × ParsedAmount)
  | 0, _ => []
  | _, [] => []
  | fuel + 1, c :: rest =>
    match parseAmountAt (c :: rest) with
    | some p =>
      ((c :: rest).take p.len, p) :: scanAmountsGo fuel ((c :: rest).drop (max p.len 1))
    | _ => scanAmountsGo fuel rest

def scanAmounts (s : List Nat) : List (List Nat × ParsedAmount) :=
  scanAmountsGo s.length s

/-- ExtractItems.extract_monetary_amounts. -/
def extract_monetary_amounts (s : List Nat) : List AmountRecord :=
  (scanAmounts s).map (fun rp => ⟨rp.1, amountValue rp.2, rp.2.scale⟩)

theorem litOf_nonneg (p : ParsedAmount) : 0 ≤ litOf p := by
  unfold litOf
  have h1 : (0 : ℚ) ≤ (digitsVal p.intDigits : ℚ) := Nat.cast_nonneg _
  have h2 : (0 : ℚ) ≤ (digitsVal p.fracDigits : ℚ) / (10 : ℚ) ^ p.fracDigits.length :=
    div_nonneg (Nat.cast_nonneg _) (by positivity)
  linarith

def C1span : List Nat := strL "restructuring charges of $125.3 million in 2023. See Note 12"

theorem scanAmounts_C1span :
    scanAmounts C1span =
      [(strL "$125.3 million", ⟨false, strL "125", strL "3", Scale.million, 14⟩),
       (strL "2023", ⟨false, strL "2023", [], Scale.none, 4⟩),
       (strL "12", ⟨false, strL "12", [], Scale.none, 2⟩)] := by decide

/-- Evaluate amountValue on a non-parenthetical match from its digit counts. -/
theorem amountValue_eval (i f : List Nat) (sc : Scale) (n a b k : Nat)
    (ha : digitsVal i = a) (hb : digitsVal f = b) (hk : f.length = k) :
    amountValue ⟨false, i, f, sc, n⟩ = (a : ℚ) + (b : ℚ) / (10 : ℚ) ^ k := by
  show litOf ⟨false, i, f, sc, n⟩ = _
  show (digitsVal i : ℚ) + (digitsVal f : ℚ) / (10 : ℚ) ^ f.length = _
  rw [ha, hb, hk]

/-- Evaluate amountValue on a parenthetical match from its digit counts. -/
theorem amountValue_eval_neg (i f : List Nat) (sc : Scale) (n a b k : Nat)
    (ha : digitsVal i = a) (hb : digitsVal f = b) (hk : f.length = k) :
    amountValue ⟨true, i, f, sc, n⟩ = -((a : ℚ) + (b : ℚ) / (10 : ℚ) ^ k) := by
  show -(litOf ⟨true, i, f, sc, n⟩) = _
  show -((digitsVal i : ℚ) + (digitsVal f : ℚ) / (10 : ℚ) ^ f.length) = _
  rw [ha, hb, hk]

theorem value_125_3 :
    amountValue ⟨false, strL "125", strL "3", Scale.million, 14⟩ = 1253 / 10 := by
  rw [amountValue_eval _ _ _ _ 125 3 1 (by decide) (by decide) (by decide)]
  norm_num

theorem value_2023 :
    amountValue ⟨false, strL "2023", [], Scale.none, 4⟩ = 2023 := by
  rw [amountValue_eval _ _ _ _ 2023 0 0 (by decide) (by decide) (by decide)]
  norm_num

theorem value_12 :
    amountValue ⟨false, strL "12", [], Scale.none, 2⟩ = 12 := by
  rw [amountValue_eval _ _ _ _ 12 0 0 (by decide) (by decide) (by decide)]
  norm_num

theorem value_neg_23_5 :
    amountValue ⟨true, strL "23", strL "5", Scale.million, 15⟩ = -(47 / 2) := by
  rw [amountValue_eval_neg _ _ _ _ 23 5 1 (by decide) (by decide) (by decide)]
  norm_num

/-- Claim C1 counterexample: on the scenario span the extractor returns the
amount of scale million with value 125.3 (the unscaled literal, matching the
repository's own test), and no record carries the value 125300000. -/
theorem C1_counterexample :
    (∃ r ∈ extract_monetary_amounts C1span, r.scale = Scale.million ∧ r.value = 1253 / 10) ∧
    (∀ r ∈ extract_monetary_amounts C1span, r.value ≠ 125300000) := by
  unfold extract_monetary_amounts
  rw [scanAmounts_C1span]
  simp only [List.map_cons, List.map_nil]
  constructor
  · exact ⟨_, List.mem_cons_self _ _, rfl, value_125_3⟩
  · intro r hr
    simp only [List.mem_cons, List.not_mem_nil, or_false] at hr
    rcases hr with rfl | rfl | rfl
    · show amountValue ⟨false, strL "125", strL "3", Scale.million, 14⟩ ≠ 125300000
      rw [value_125_3]
      norm_num
    · show amountValue ⟨false, strL "2023", [], Scale.none, 4⟩ ≠ 125300000
      rw [value_2023]
      norm_num
    · show amountValue ⟨false, strL "12", [], Scale.none, 2⟩ ≠ 125300000
      rw [value_12]
      norm_num

/-- Claim C1 (amended): every record returned by extract_monetary_amounts
carries as value the signed numeric literal of its match, with the scale word
reported separately in the scale field (the multiplier is not applied to
value); the normalized amount is value times the scale multiplier, and in
particular a span containing "$125.3 million" yields a record with value
125.3 and scale million, whose normalized amount is 125300000. -/
theorem C1_value_is_literal :
    (∀ (s : List Nat), ∀ r ∈ extract_monetary_amounts s,
      ∃ rp ∈ scanAmounts s, r.raw_text = rp.1 ∧ r.scale = rp.2.scale ∧
        r.value = amountValue rp.2) ∧
    (∃ r ∈ extract_monetary_amounts C1span,
      r.raw_text = strL "$125.3 million" ∧ r.scale = Scale.million ∧
      r.value = 1253 / 10 ∧ r.value * scaleMultiplier r.scale = 125300000) := by
  constructor
  · intro s r hr
    rcases List.mem_map.mp hr with ⟨rp, hrp, rfl⟩
    exact ⟨rp, hrp, rfl, rfl, rfl⟩
  · unfold extract_monetary_amounts
    rw [scanAmounts_C1span]
    simp only [List.map_cons, List.map_nil]
    refine ⟨_, List.mem_cons_self _ _, rfl, rfl, value_125_3, ?_⟩
    show amountValue ⟨false, strL "125", strL "3", Scale.million, 14⟩ *
      scaleMultiplier Scale.million = 125300000
    rw [value_125_3]
    norm_num [scaleMultiplier]

theorem C1_value_is_literal_witness :
    ∃ rp ∈ scanAmounts C1span,
      (⟨strL "$125.3 million", 1253 / 10, Scale.million⟩ : AmountRecord).raw_text = rp.1 ∧
      (⟨strL "$125.3 million", 1253 / 10, Scale.million⟩ : AmountRecord).scale = rp.2.scale ∧
      (⟨strL "$125.3 million", 1253 / 10, Scale.million⟩ : AmountRecord).value = amountValue rp.2 := by
  apply C1_value_is_literal.1 C1span
  unfold extract_monetary_amounts
  rw [scanAmounts_C1span]
  simp only [List.map_cons, List.map_nil]
  rw [show (⟨strL "$125.3 million", 1253 / 10, Scale.million⟩ : AmountRecord) =
    ⟨strL "$125.3 million",
      amountValue ⟨false, strL "125", strL "3", Scale.million, 14⟩, Scale.million⟩ by
    rw [value_125_3]]
  exact List.mem_cons_self _ _

def C2span : List Nat := strL "severance costs of ($23.5 million) and facility closure costs"

theorem scanAmounts_C2span :
    scanAmounts C2span =
      [(strL "($23.5 million)", ⟨true, strL "23", strL "5", Scale.million, 15⟩)] := by decide

/-- Claim C2 counterexample: on the scenario span the parenthetical amount is
returned with the negated unscaled literal (value -23.5, matching the
repository's own test), and no record carries the value -23500000. -/
theorem C2_counterexample :
    (∃ r ∈ extract_monetary_amounts C2span, r.scale = Scale.million ∧ r.value < 0) ∧
    (∀ r ∈ extract_monetary_amounts C2span, r.value ≠ -23500000) := by
  unfold extract_monetary_amounts
  rw [scanAmounts_C2span]
  simp only [List.map_cons, List.map_nil]
  constructor
  · refine ⟨_, List.mem_cons_self _ _, rfl, ?_⟩
    show amountValue ⟨true, strL "23", strL "5", Scale.million, 15⟩ < 0
    rw [value_neg_23_5]
    norm_num
  · intro r hr
    simp only [List.mem_cons, List.not_mem_nil, or_false] at hr
    rcases hr with rfl
    show amountValue ⟨true, strL "23", strL "5", Scale.million, 15⟩ ≠ -23500000
    rw [value_neg_23_5]
    norm_num

/-- Claim C2 (amended): every amount whose matched text is enclosed in
parentheses is returned with the negation of its numeric literal as value
(hence a nonpositive value); in particular a span containing
"($23.5 million)" yields a record with value -23.5 and scale million, whose
normalized amount is -23500000. -/
theorem C2_paren_negated :
    (∀ (s : List Nat), ∀ rp ∈ scanAmounts s, rp.2.paren = true →
      (⟨rp.1, -(litOf rp.2), rp.2.scale⟩ : AmountRecord) ∈ extract_monetary_amounts s ∧
      -(litOf rp.2) ≤ 0) ∧
    (∃ r ∈ extract_monetary_amounts C2span,
      r.raw_text = strL "($23.5 million)" ∧ r.value = -(47 / 2) ∧ r.value < 0 ∧
      r.value * scaleMultiplier r.scale = -23500000) := by
  constructor
  · intro s rp hrp hparen
    constructor
    · unfold extract_monetary_amounts
      refine List.mem_map.mpr ⟨rp, hrp, ?_⟩
      simp [amountValue, hparen]
    · exact neg_nonpos.mpr (litOf_nonneg rp.2)
  · unfold extract_monetary_amounts
    rw [scanAmounts_C2span]
    simp only [List.map_cons, List.map_nil]
    refine ⟨_, List.mem_cons_self _ _, rfl, value_neg_23_5, ?_, ?_⟩
    · show amountValue ⟨true, strL "23", strL "5", Scale.million, 15⟩ < 0
      rw [value_neg_23_5]
      norm_num
    · show amountValue ⟨true, strL "23", strL "5", Scale.million, 15⟩ *
        scaleMultiplier Scale.million = -23500000
      rw [value_neg_23_5]
      norm_num [scaleMultiplier]

/- ===== FootnoteReferenceParser (ExtractItems.extract_footnote_references).
   Modelled from the spec:  extract_items.py is not in the sources; spec
   section 4.6 asks for patterns naming a note or footnote by number with an
   optional letter suffix, case-insensitive, anchored on the words Note or
   Footnote. -/

structure FootnoteRef where
  raw_text : List Nat
  note_id : List Nat
deriving DecidableEq

def isLetter (c : Nat) : Bool := decide ((65 ≤ c ∧ c ≤ 90) ∨ (97 ≤ c ∧ c ≤ 122))

/-- Try to parse one footnote reference at the head of s; prev is the
preceding character, giving the word boundary before the anchor word.
Returns the note id and the matched length. -/
def parseNoteAt (prev : Option Nat) (s : List Nat) : Option (List Nat × Nat) :=
  let boundary : Bool := match prev with
    | some p => !(wordChar p)
    | _ => true
  if boundary then
    let alen : Nat :=
      if matchWordCI (strL "footnote") s then 8
      else if matchWordCI (strL "note") s then 4
      else 0
    if alen = 0 then Option.none
    else
      let s1 := s.drop alen
      let sp := s1.takeWhile wsChar
      if sp.isEmpty then Option.none
      else
        let s2 := s1.drop sp.length
        let ds := s2.takeWhile isDigit
        if ds.isEmpty then Option.none
        else
          let s3 := s2.drop ds.length
          let suf := match s3.head? with
            | some c => if isLetter c then [c] else []
            | _ => []
          some (ds ++ suf, alen + sp.length + ds.length + suf.length)
  else Option.none

/-- Left-to-right scan for footnote references, fuelled by the text length. -/
def scanNotesGo : Nat → Option Nat → List Nat → List FootnoteRef
  | 0, _, _ => []
  | _, _, [] => []
  | fuel + 1, prev, c :: rest =>
    match parseNoteAt prev (c :: rest) with
    | some (nid, len) =>
      ⟨(c :: rest).take len, nid⟩ ::
        scanNotesGo fuel (((c :: rest).take (max len 1)).getLast?) ((c :: rest).drop (max len 1))
    | _ => scanNotesGo fuel (some c) rest

/-- ExtractItems.extract_footnote_references. -/
def extract_footnote_references (s : List Nat) : List FootnoteRef :=
  scanNotesGo s.length Option.none s

/- ===== SpecialItemDetector (ExtractItems.extract_special_items).
   Modelled from the spec:  extract_items.py is not in the sources; spec
   section 4.7 gives the algorithm (case-insensitive keyword occurrences,
   fixed-size context windows, per-category merge of overlapping windows with
   keyword union, enrichment by the amount and footnote parsers, a bounded
   weighted confidence clamped to [0,1] with a lower base weight for the
   catch-all category, and a threshold filter).  The spec names no numeric
   weights; the weights below are in exact hundredths of a confidence point
   (centi-units), so confidence = score / 100. -/

/-- One detected occurrence candidate: a context window and the union of the
keywords matched inside it. -/
structure Candidate where
  lo : Nat
  hi : Nat
  kws : List (List Nat)
deriving DecidableEq

/-- Half-width of the fixed-size context window centred on a match. -/
def windowRadius : Nat := 150

/-- Union-insert of a matched keyword into a candidate's keyword set. -/
def addKw (kw : List Nat) (l : List (List Nat)) : List (List Nat) :=
  if kw ∈ l then l else l ++ [kw]

/-- Fresh candidate for a keyword occurrence at position pos of a text of
length L. -/
def newCand (L R : Nat) (pos : Nat) (kw : List Nat) : Candidate :=
  ⟨pos - R, min L (pos + kw.length + R), [kw]⟩

/-- Merge position-sorted occurrences of one category into candidates,
joining occurrences whose windows overlap the current candidate. -/
def mergeInto (L R : Nat) (c : Candidate) : List (Nat × List Nat) → List Candidate
  | [] => [c]
  | (pos, kw) :: rest =>
    if pos - R ≤ c.hi then
      mergeInto L R ⟨c.lo, max c.hi (min L (pos + kw.length + R)), addKw kw c.kws⟩ rest
    else
      c :: mergeInto L R (newCand L R pos kw) rest

def mergeOccs (L R : Nat) : List (Nat × List Nat) → List Candidate
  | [] => []
  | (pos, kw) :: rest => mergeInto L R (newCand L R pos kw) rest

def insertByPos (x : Nat × List Nat) : List (Nat × List Nat) → List (Nat × List Nat)
  | [] => [x]
  | y :: r => if x.1 ≤ y.1 then x :: y :: r else y :: insertByPos x r

/-- Insertion sort of occurrences by position, so windows are processed in
document order. -/
def sortByPos (l : List (Nat × List Nat)) : List (Nat × List Nat) :=
  l.foldr insertByPos []

/-- All case-insensitive occurrence positions of kw in text. -/
def occurrencesOf (kw text : List Nat) : List Nat :=
  let lk := kw.map lowerChar
  let lt := text.map lowerChar
  (List.range text.length).filter (fun i => !(lk.isEmpty) && lk.isPrefixOf (lt.drop i))

/-- Category base weight in centi-units: the catch-all category is weighted
lower than the specific ones. -/
def baseCenti (cat : List Nat) : Nat := if cat = strL "other" then 10 else 30

/-- Keyword-count bonus with diminishing returns (capped). -/
def kwCenti (k : Nat) : Nat := min (15 * k) 45

/-- Bounded weighted confidence in centi-units, clamped to [0,100]. -/
def scoreCenti (cat : List Nat) (k : Nat) (hasAmt hasNote : Bool) : Nat :=
  min (baseCenti cat + kwCenti k + (if hasAmt then 20 else 0) +
    (if hasNote then 10 else 0)) 100

structure SpecialItem where
  type : List Nat
  keywords_matched : List (List Nat)
  confidence : ℚ
  context : List Nat
  source_section : List Nat
  amount_raw : Option (List Nat)
  amount_value : Option ℚ
  amount_scale : Option Scale
  footnote_reference : Option (List Nat)

/-- Detector configuration of spec section 4.7; the confidence threshold is
held in centi-units (30 models the source's 0.3). -/
structure SpecialItemsConfig where
  enabled : Bool
  scan_whole_document : Bool
  restricted_ids : List (List Nat)
  confidence_threshold : Nat
  keyword_categories : List (List Nat × List (List Nat))
deriving DecidableEq

/-- Merged candidates of one category over the scan text. -/
def candidatesFor (text : List Nat) (kws : List (List Nat)) : List Candidate :=
  mergeOccs text.length windowRadius
    (sortByPos ((kws.map (fun kw => (occurrencesOf kw text).map (fun i => (i, kw)))).flatten))

/-- Centi-unit confidence of one candidate after enrichment. -/
def itemCentiOf (text cat : List Nat) (c : Candidate) : Nat :=
  let ctx := (text.take c.hi).drop c.lo
  scoreCenti cat c.kws.length (!(extract_monetary_amounts ctx).isEmpty)
    (!(extract_footnote_references ctx).isEmpty)

/-- Build the emitted SpecialItem for one surviving candidate. -/
def itemOf (text src cat : List Nat) (c : Candidate) : SpecialItem :=
  let ctx := (text.take c.hi).drop c.lo
  let amts := extract_monetary_amounts ctx
  let fns := extract_footnote_references ctx
  { type := cat
  , keywords_matched := c.kws
  , confidence := (scoreCenti cat c.kws.length (!amts.isEmpty) (!fns.isEmpty) : ℚ) / 100
  , context := ctx
  , source_section := src
  , amount_raw := (amts.head?).map (fun r => r.raw_text)
  , amount_value := (amts.head?).map (fun r => r.value)
  , amount_scale := (amts.head?).map (fun r => r.scale)
  , footnote_reference := (fns.head?).map (fun r => r.note_id) }

/-- Detections of one category: candidates below the confidence threshold are
discarded, the rest are emitted in window order. -/
def detectCategory (text src : List Nat) (threshold : Nat)
    (ckw : List Nat × List (List Nat)) : List SpecialItem :=
  ((candidatesFor text ckw.2).filter
      (fun c => threshold ≤ itemCentiOf text ckw.1 c)).map (itemOf text src ckw.1)

/-- ExtractItems.extract_special_items over the chosen scan text. -/
def extract_special_items (text src : List Nat) (cfg : SpecialItemsConfig) :
    List SpecialItem :=
  if cfg.enabled then
    (cfg.keyword_categories.map (detectCategory text src cfg.confidence_threshold)).flatten
  else []

theorem addKw_ne_nil (kw : List Nat) (l : List (List Nat)) (h : l ≠ []) :
    addKw kw l ≠ [] := by
  unfold addKw
  split
  · exact h
  · intro hc
    rcases List.append_eq_nil.mp hc with ⟨-, h2⟩
    exact List.cons_ne_nil _ _ h2

theorem mergeInto_kws (L R : Nat) :
    ∀ (occs : List (Nat × List Nat)) (c : Candidate), c.kws ≠ [] →
      ∀ d ∈ mergeInto L R c occs, d.kws ≠ [] := by
  intro occs
  induction occs with
  | nil =>
    intro c hc d hd
    simp only [mergeInto, List.mem_singleton] at hd
    rw [hd]
    exact hc
  | cons o rest ih =>
    intro c hc d hd
    rcases o with ⟨pos, kw⟩
    unfold mergeInto at hd
    split at hd
    · exact ih _ (addKw_ne_nil kw c.kws hc) d hd
    · rcases List.mem_cons.mp hd with rfl | hd'
      · exact hc
      · exact ih _ (List.cons_ne_nil _ _) d hd'

theorem mergeOccs_kws (L R : Nat) (occs : List (Nat × List Nat)) :
    ∀ d ∈ mergeOccs L R occs, d.kws ≠ [] := by
  cases occs with
  | nil => intro d hd; simp [mergeOccs] at hd
  | cons o rest =>
    intro d hd
    rcases o with ⟨pos, kw⟩
    exact mergeInto_kws L R rest (newCand _ _ pos kw) (List.cons_ne_nil _ _) d hd

/-- Claim C4: every emitted SpecialItem has confidence in [0,1] (the weighted
sum is clamped) and a non-empty keywords_matched set. -/
theorem C4_confidence_bounds (text src : List Nat) (cfg : SpecialItemsConfig)
    (it : SpecialItem) (h : it ∈ extract_special_items text src cfg) :
    0 ≤ it.confidence ∧ it.confidence ≤ 1 ∧ it.keywords_matched ≠ [] := by
  unfold extract_special_items at h
  split at h
  · rcases List.mem_flatten.mp h with ⟨l, hl, hit⟩
    rcases List.mem_map.mp hl with ⟨ckw, -, rfl⟩
    unfold detectCategory at hit
    rcases List.mem_map.mp hit with ⟨c, hc, rfl⟩
    have hcand : c ∈ candidatesFor text ckw.2 := List.mem_of_mem_filter hc
    have hkws : c.kws ≠ [] := mergeOccs_kws _ _ _ c hcand
    refine ⟨?_, ?_, hkws⟩
    · show (0 : ℚ) ≤ (scoreCenti _ _ _ _ : ℚ) / 100
      positivity
    · show ((scoreCenti _ _ _ _ : ℚ)) / 100 ≤ 1
      rw [div_le_one (by norm_num)]
      have hs : scoreCenti ckw.1 c.kws.length
          (!(extract_monetary_amounts ((text.take c.hi).drop c.lo)).isEmpty)
          (!(extract_footnote_references ((text.take c.hi).drop c.lo)).isEmpty) ≤ 100 :=
        Nat.min_le_right _ _
      exact_mod_cast hs
  · exact absurd h (List.not_mem_nil it)

def C4text : List Nat := strL "restructuring charges of $5 million. See Note 7"

def C4cfg : SpecialItemsConfig :=
  ⟨true, true, [], 30, [(strL "restructuring", [strL "restructuring"])]⟩

def C4item : SpecialItem :=
  itemOf C4text (strL "document") (strL "restructuring") ⟨0, 47, [strL "restructuring"]⟩

theorem C4_confidence_bounds_witness :
    0 ≤ C4item.confidence ∧ C4item.confidence ≤ 1 ∧ C4item.keywords_matched ≠ [] :=
  C4_confidence_bounds C4text (strL "document") C4cfg C4item (by
    have h : extract_special_items C4text (strL "document") C4cfg = [C4item] := rfl
    rw [h]
    exact List.mem_cons_self _ _)

/- ===== ItemSchemaResolver (spec section 4.2).
   Modelled from the spec:  extract_items.py is not in the sources; the spec
   fixes the regime-change rule and src/tests/test_extract_items.py
   (test_extract_items_8K, lines 255-287) fixes the cutoff 2004-08-23 and the
   two 8-K item templates; the 10-K and 10-Q templates are the test's item
   lists. -/

inductive FilingType where
  | annual
  | quarterly
  | current_event
deriving DecidableEq

structure FilingDate where
  year : Nat
  month : Nat
  day : Nat
deriving DecidableEq

/-- Calendar order on filing dates (at or before). -/
def dateLE (a b : FilingDate) : Prop :=
  a.year < b.year ∨ (a.year = b.year ∧
    (a.month < b.month ∨ (a.month = b.month ∧ a.day ≤ b.day)))

/-- Strict calendar order on filing dates. -/
def dateLT (a b : FilingDate) : Prop :=
  a.year < b.year ∨ (a.year = b.year ∧
    (a.month < b.month ∨ (a.month = b.month ∧ a.day < b.day)))

instance (a b : FilingDate) : Decidable (dateLE a b) := by
  unfold dateLE; exact inferInstance

instance (a b : FilingDate) : Decidable (dateLT a b) := by
  unfold dateLT; exact inferInstance

/-- The 8-K numbering regime change date (test_extract_items.py line 283). -/
def cutoff8K : FilingDate := ⟨2004, 8, 23⟩

def items10K : List String :=
  ["1", "1A", "1B", "1C", "2", "3", "4", "5", "6", "7", "7A", "8", "9", "9A",
   "9B", "9C", "10", "11", "12", "13", "14", "15", "16"]

def items10Q : List String :=
  ["part_1__1", "part_1__2", "part_1__3", "part_1__4", "part_2__1",
   "part_2__1A", "part_2__2", "part_2__3", "part_2__4", "part_2__5", "part_2__6"]

def items8K_legacy : List String :=
  ["1", "2", "3", "4", "5", "6", "7", "8", "9", "10", "11", "12"]

def items8K_current : List String :=
  ["1.01", "1.02", "1.03", "1.04", "1.05", "2.01", "2.02", "2.03", "2.04",
   "2.05", "2.06", "3.01", "3.02", "3.03", "4.01", "4.02", "5.01", "5.02",
   "5.03", "5.04", "5.05", "5.06", "5.07", "5.08", "6.01", "6.02", "6.03",
   "6.04", "6.05", "7.01", "8.01", "9.01"]

/-- Pure schema lookup from filing type and date; the current-event template
depends on whether the filing date is at or before the cutoff. -/
def resolve_schema : FilingType → FilingDate → List String
  | FilingType.annual, _ => items10K
  | FilingType.quarterly, _ => items10Q
  | FilingType.current_event, d =>
    if dateLE d cutoff8K then items8K_legacy else items8K_current

theorem not_dateLE_of_dateLT (a b : FilingDate) (h : dateLT a b) : ¬dateLE b a := by
  unfold dateLT at h
  unfold dateLE
  omega

/-- Claim C5: for current-event reports every filing date at or before the
2004-08-23 cutoff resolves to the legacy numbering template and every date
strictly after it to the current template; the two templates differ. -/
theorem C5_cutoff (d : FilingDate) :
    (dateLE d cutoff8K → resolve_schema FilingType.current_event d = items8K_legacy) ∧
    (dateLT cutoff8K d → resolve_schema FilingType.current_event d = items8K_current) ∧
    items8K_legacy ≠ items8K_current := by
  refine ⟨?_, ?_, by decide⟩
  · intro h
    show (if dateLE d cutoff8K then items8K_legacy else items8K_current) = _
    rw [if_pos h]
  · intro h
    show (if dateLE d cutoff8K then items8K_legacy else items8K_current) = _
    rw [if_neg (not_dateLE_of_dateLT cutoff8K d h)]

theorem C5_cutoff_witness :
    resolve_schema FilingType.current_event ⟨2004, 8, 23⟩ = items8K_legacy ∧
    resolve_schema FilingType.current_event ⟨2004, 8, 24⟩ = items8K_current :=
  ⟨(C5_cutoff ⟨2004, 8, 23⟩).1 (by decide),
   (C5_cutoff ⟨2004, 8, 24⟩).2.1 (by decide)⟩

/- ===== SectionBoundaryLocator and SectionExtractor (spec sections 4.3-4.4).
   Modelled from the spec:  extract_items.py is not in the sources.  Headings
   are matched case-insensitively; all candidate positions are collected; the
   sections are resolved backwards, each taking the candidate occurrence
   closest to but still before the next resolved section's position (document
   end or signature marker when none); text is sliced between consecutive
   resolved boundaries; composite parts concatenate their constituent
   sections in schema order. -/

structure Section where
  id : List Nat
  heading : List Nat
  part : Option (List Nat)
deriving DecidableEq

/-- End boundary of the final section: the last occurrence of the signature
marker if present, else the end of the document. -/
def signatureEnd (text : List Nat) : Nat :=
  match (occurrencesOf (strL "signatures") text).getLast? with
  | some p => p
  | _ => text.length

/-- Largest candidate strictly below next, if any. -/
def maxBelow (next : Nat) : List Nat → Option Nat
  | [] => Option.none
  | c :: rest =>
    match maxBelow next rest with
    | some m => if c < next then some (max c m) else some m
    | _ => if c < next then some c else Option.none

/-- Resolve sections from the last to the first, each selecting its best
candidate strictly before the next resolved position. -/
def resolveRev : List (Section × List Nat) → Nat → List (Section × Nat)
  | [], _ => []
  | (sec, cs) :: earlier, nextPos =>
    match maxBelow nextPos cs with
    | some p => (sec, p) :: resolveRev earlier p
    | _ => resolveRev earlier nextPos

/-- Resolved boundaries in schema order: only sections with a chosen start. -/
def resolveBoundaries (text : List Nat) (schema : List Section) : List (Section × Nat) :=
  (resolveRev ((schema.map (fun s => (s, occurrencesOf s.heading text))).reverse)
    (signatureEnd text)).reverse

structure ExtractedSection where
  sec : Section
  start_offset : Nat
  end_offset : Nat
  text : List Nat
deriving DecidableEq

/-- Slice each resolved section from its start to the next section's start;
the last section runs to the end position. -/
def sliceSections (text : List Nat) (endPos : Nat) :
    List (Section × Nat) → List ExtractedSection
  | [] => []
  | [(s, p)] => [⟨s, p, endPos, (text.take endPos).drop p⟩]
  | (s, p) :: (s2, q) :: rest =>
    ⟨s, p, q, (text.take q).drop p⟩ :: sliceSections text endPos ((s2, q) :: rest)

def extractedSections (text : List Nat) (schema : List Section) : List ExtractedSection :=
  sliceSections text (signatureEnd text) (resolveBoundaries text schema)

/-- Text of a schema section: the slice if resolved, empty otherwise. -/
def sectionText (text : List Nat) (schema : List Section) (s : Section) : List Nat :=
  match (extractedSections text schema).find? (fun es => es.sec.id == s.id) with
  | some es => es.text
  | _ => []

/-- The section mapping of the ExtractedFiling: one key per schema section. -/
def sectionMapping (text : List Nat) (schema : List Section) :
    List (List Nat × List Nat) :=
  schema.map (fun s => (s.id, sectionText text schema s))

def partIds (schema : List Section) : List (List Nat) :=
  (schema.filterMap (fun s => s.part)).dedup

/-- Composite part aggregates: ordered concatenation of constituent texts. -/
def partAggregates (text : List Nat) (schema : List Section) :
    List (List Nat × List Nat) :=
  (partIds schema).map (fun pid =>
    (pid, ((schema.filter (fun s => s.part == some pid)).map
      (sectionText text schema)).flatten))

structure ExtractedFiling where
  sections : List (List Nat × List Nat)
  parts : List (List Nat × List Nat)
  special_items : List SpecialItem

/-- Scan text for the detector per scan_scope: the whole document or the
concatenation of the configured restricted sections. -/
def scanTextFor (text : List Nat) (schema : List Section)
    (cfg : SpecialItemsConfig) : List Nat :=
  if cfg.scan_whole_document then text
  else ((schema.filter (fun s => cfg.restricted_ids.contains s.id)).map
    (sectionText text schema)).flatten

/-- The full extraction pipeline on a preprocessed document. -/
def extract_filing (text : List Nat) (schema : List Section)
    (cfg : SpecialItemsConfig) : ExtractedFiling :=
  { sections := sectionMapping text schema
  , parts := partAggregates text schema
  , special_items :=
      extract_special_items (scanTextFor text schema cfg) (strL "document") cfg }

theorem maxBelow_lt (next : Nat) :
    ∀ (l : List Nat) (p : Nat), maxBelow next l = some p → p < next := by
  intro l
  induction l with
  | nil => intro p h; simp [maxBelow] at h
  | cons c rest ih =>
    intro p h
    unfold maxBelow at h
    split at h
    · rename_i m hm
      split at h
      · rename_i hc
        rw [← Option.some.inj h]
        exact Nat.max_lt.mpr ⟨hc, ih m hm⟩
      · rw [← Option.some.inj h]
        exact ih m hm
    · split at h
      · rename_i hc
        rw [← Option.some.inj h]
        exact hc
      · exact absurd h (by simp)

theorem resolveRev_inv :
    ∀ (l : List (Section × List Nat)) (nextPos : Nat),
      (∀ e ∈ resolveRev l nextPos, e.2 < nextPos) ∧
      List.Pairwise (fun a b => b.2 < a.2) (resolveRev l nextPos) := by
  intro l
  induction l with
  | nil => intro nextPos; simp [resolveRev]
  | cons sc earlier ih =>
    intro nextPos
    rcases sc with ⟨sec, cs⟩
    show (∀ e ∈ resolveRev ((sec, cs) :: earlier) nextPos, e.2 < nextPos) ∧ _
    unfold resolveRev
    cases hm : maxBelow nextPos cs with
    | some p =>
      have hp := maxBelow_lt nextPos cs p hm
      constructor
      · intro e he
        rcases List.mem_cons.mp he with rfl | he'
        · exact hp
        · exact lt_trans ((ih p).1 e he') hp
      · exact List.Pairwise.cons (fun e he => (ih p).1 e he) (ih p).2
    | none => exact ih nextPos

theorem sliceSections_head (text : List Nat) (endPos : Nat) (s2 : Section) (q : Nat)
    (rest2 : List (Section × Nat)) :
    ∃ e, (sliceSections text endPos ((s2, q) :: rest2)).head? =
      some ⟨s2, q, e, (text.take e).drop q⟩ := by
  cases rest2 with
  | nil => exact ⟨endPos, rfl⟩
  | cons b3 r3 =>
    rcases b3 with ⟨s3, r⟩
    exact ⟨r, rfl⟩

theorem sliceSections_chain (text : List Nat) (endPos : Nat) :
    ∀ (bs : List (Section × Nat)), List.Pairwise (fun a b => a.2 < b.2) bs →
      List.Chain' (fun a b => a.end_offset = b.start_offset ∧
        a.start_offset < b.start_offset) (sliceSections text endPos bs) := by
  intro bs
  induction bs with
  | nil => intro _; exact List.chain'_nil
  | cons b rest ih =>
    intro hp
    rcases b with ⟨s, p⟩
    cases rest with
    | nil => exact List.chain'_singleton _
    | cons b2 rest2 =>
      rcases b2 with ⟨s2, q⟩
      have hpq : p < q :=
        (List.pairwise_cons.mp hp).1 (s2, q) (List.mem_cons_self _ _)
      have htail := ih (List.pairwise_cons.mp hp).2
      show List.Chain' _
        (⟨s, p, q, (text.take q).drop p⟩ :: sliceSections text endPos ((s2, q) :: rest2))
      refine List.chain'_cons'.mpr ⟨?_, htail⟩
      intro y hy
      rcases sliceSections_head text endPos s2 q rest2 with ⟨e, he⟩
      rw [he] at hy
      simp only [Option.mem_def, Option.some.injEq] at hy
      rw [← hy]
      exact ⟨rfl, hpq⟩

theorem sliceSections_text_eq (text : List Nat) (endPos : Nat) :
    ∀ (bs : List (Section × Nat)), ∀ es ∈ sliceSections text endPos bs,
      es.text = (text.take es.end_offset).drop es.start_offset := by
  intro bs
  induction bs with
  | nil => intro es h; exact absurd h (List.not_mem_nil es)
  | cons b rest ih =>
    intro es h
    rcases b with ⟨s, p⟩
    cases rest with
    | nil =>
      simp only [sliceSections, List.mem_singleton] at h
      rw [h]
    | cons b2 rest2 =>
      rcases b2 with ⟨s2, q⟩
      rcases List.mem_cons.mp h with rfl | h'
      · rfl
      · exact ih es h'

theorem slice_start_lt_end (text : List Nat) (e s : Nat)
    (h : (text.take e).drop s ≠ []) : s < e := by
  by_contra hc
  push_neg at hc
  apply h
  exact List.drop_eq_nil_of_le (by rw [List.length_take]; omega)

theorem sliceSections_secs (text : List Nat) (endPos : Nat) :
    ∀ (bs : List (Section × Nat)),
      (sliceSections text endPos bs).map (fun es => es.sec) = bs.map (fun b => b.1) := by
  intro bs
  induction bs with
  | nil => rfl
  | cons b rest ih =>
    rcases b with ⟨s, p⟩
    cases rest with
    | nil => rfl
    | cons b2 rest2 =>
      rcases b2 with ⟨s2, q⟩
      show _ :: (sliceSections text endPos ((s2, q) :: rest2)).map (fun es => es.sec) = _
      rw [ih]
      rfl

/-- Claim C6: the chosen section boundaries are in document order and
contiguous (each section's end offset is the next one's start offset), and
every section with non-empty text has start_offset < end_offset. -/
theorem C6_boundaries (text : List Nat) (schema : List Section) :
    List.Chain' (fun a b => a.end_offset = b.start_offset ∧
      a.start_offset < b.start_offset) (extractedSections text schema) ∧
    (∀ es ∈ extractedSections text schema, es.text ≠ [] →
      es.start_offset < es.end_offset) := by
  constructor
  · apply sliceSections_chain
    unfold resolveBoundaries
    rw [List.pairwise_reverse]
    refine List.Pairwise.imp ?_ (resolveRev_inv _ _).2
    intro a b h
    exact h
  · intro es hes hne
    have h := sliceSections_text_eq text (signatureEnd text) _ es hes
    rw [h] at hne
    exact slice_start_lt_end text _ _ hne

def C6text : List Nat := strL "contents item 1. alpha item 2. beta signatures"

def C6schema : List Section :=
  [⟨strL "item_1", strL "item 1", Option.none⟩,
   ⟨strL "item_2", strL "item 2", Option.none⟩]

def C6es : ExtractedSection :=
  ⟨⟨strL "item_1", strL "item 1", Option.none⟩, 9, 23, strL "item 1. alpha "⟩

theorem C6_boundaries_witness : C6es.start_offset < C6es.end_offset :=
  (C6_boundaries C6text C6schema).2 C6es (by decide) (by decide)

theorem lookup_map_id {β : Type} (f : Section → β) :
    ∀ (l : List Section) (s : Section), s ∈ l →
      ∃ t, (l.map (fun x => (x.id, f x))).lookup s.id = some t := by
  intro l
  induction l with
  | nil => intro s h; exact absurd h (List.not_mem_nil s)
  | cons a r ih =>
    intro s h
    by_cases hid : (s.id == a.id) = true
    · exact ⟨f a, by simp [List.lookup, hid]⟩
    · rcases List.mem_cons.mp h with rfl | h'
      · simp at hid
      · rcases ih s h' with ⟨t, ht⟩
        exact ⟨t, by simp [List.lookup, hid, ht]⟩

theorem lookup_map_id_eq {β : Type} (f : Section → β) :
    ∀ (l : List Section), (l.map (fun x => x.id)).Nodup →
      ∀ s ∈ l, (l.map (fun x => (x.id, f x))).lookup s.id = some (f s) := by
  intro l
  induction l with
  | nil => intro _ s h; exact absurd h (List.not_mem_nil s)
  | cons a r ih =>
    intro hnd s h
    rw [List.map_cons, List.nodup_cons] at hnd
    rcases List.mem_cons.mp h with rfl | h'
    · simp [List.lookup]
    · have hne : (s.id == a.id) = false := by
        rw [beq_eq_false_iff_ne]
        intro heq
        apply hnd.1
        rw [← heq]
        exact List.mem_map_of_mem (fun x => x.id) h'
      simp [List.lookup, hne, ih hnd.2 s h']

theorem sectionText_unresolved (text : List Nat) (schema : List Section)
    (s : Section)
    (h : s.id ∉ (resolveBoundaries text schema).map (fun e => e.1.id)) :
    sectionText text schema s = [] := by
  unfold sectionText
  have hnone : (extractedSections text schema).find?
      (fun es => es.sec.id == s.id) = Option.none := by
    rw [List.find?_eq_none]
    intro es hes hbeq
    apply h
    have hsec : es.sec ∈ (extractedSections text schema).map (fun es => es.sec) :=
      List.mem_map_of_mem _ hes
    rw [extractedSections, sliceSections_secs] at hsec
    rcases List.mem_map.mp hsec with ⟨b, hb, hfb⟩
    have hid : es.sec.id = s.id := eq_of_beq hbeq
    exact List.mem_map.mpr ⟨b, hb, by rw [hfb, hid]⟩
  rw [hnone]

/-- Claim C3: every schema-declared section id is present as a key of the
ExtractedFiling section mapping; when the section was not matched (its id is
unresolved) and the schema ids are distinct, the value under its key is the
empty string — the key is never missing. -/
theorem C3_every_section_key (text : List Nat) (cfg : SpecialItemsConfig)
    (schema : List Section) (s : Section) (hs : s ∈ schema) :
    (∃ t, ((extract_filing text schema cfg).sections).lookup s.id = some t) ∧
    ((schema.map (fun x => x.id)).Nodup →
      s.id ∉ (resolveBoundaries text schema).map (fun e => e.1.id) →
      ((extract_filing text schema cfg).sections).lookup s.id = some []) := by
  constructor
  · exact lookup_map_id (sectionText text schema) schema s hs
  · intro hnd hun
    show (sectionMapping text schema).lookup s.id = some []
    unfold sectionMapping
    rw [lookup_map_id_eq (sectionText text schema) schema hnd s hs,
      sectionText_unresolved text schema s hun]

def C3text : List Nat := strL "intro Item 1. Business body text Signatures block"

def C3sec1 : Section := ⟨strL "item_1", strL "item 1", Option.none⟩

def C3sec2 : Section := ⟨strL "item_2", strL "item 2", Option.none⟩

def C3schema : List Section := [C3sec1, C3sec2]

def C3cfg : SpecialItemsConfig := ⟨false, true, [], 30, []⟩

theorem C3_every_section_key_witness :
    (∃ t, ((extract_filing C3text C3schema C3cfg).sections).lookup C3sec2.id = some t) ∧
    ((extract_filing C3text C3schema C3cfg).sections).lookup C3sec2.id = some [] :=
  ⟨(C3_every_section_key C3text C3cfg C3schema C3sec2 (by decide)).1,
   (C3_every_section_key C3text C3cfg C3schema C3sec2 (by decide)).2
     (by decide) (by decide)⟩

/-- Claim C7: a disabled detector or an empty keyword-category mapping yields
an empty special_items list, with no error and with section extraction
unaffected. -/
theorem C7_disabled_or_empty (text : List Nat) (schema : List Section)
    (cfg : SpecialItemsConfig)
    (h : cfg.enabled = false ∨ cfg.keyword_categories = []) :
    (extract_filing text schema cfg).special_items = [] ∧
    (extract_filing text schema cfg).sections = sectionMapping text schema := by
  refine ⟨?_, rfl⟩
  show extract_special_items (scanTextFor text schema cfg) (strL "document") cfg = []
  unfold extract_special_items
  by_cases hb : cfg.enabled = true
  · rcases h with hd | he
    · rw [hd] at hb
      exact absurd hb (by decide)
    · rw [if_pos hb, he]
      rfl
  · rw [if_neg hb]

def C7cfg : SpecialItemsConfig := ⟨true, true, [], 30, []⟩

theorem C7_disabled_or_empty_witness :
    (extract_filing [] [] C7cfg).special_items = [] ∧
    (extract_filing [] [] C7cfg).sections = sectionMapping [] [] :=
  C7_disabled_or_empty [] [] C7cfg (Or.inr rfl)

/-- Claim C8: the extraction pipeline is deterministic — two runs on equal
text, schema and configuration produce equal outputs (the core is a pure
function of its inputs), so re-processing is idempotent. -/
theorem C8_deterministic (t1 t2 : List Nat) (s1 s2 : List Section)
    (c1 c2 : SpecialItemsConfig) (ht : t1 = t2) (hs : s1 = s2) (hc : c1 = c2) :
    extract_filing t1 s1 c1 = extract_filing t2 s2 c2 := by
  rw [ht, hs, hc]

def C8cfg : SpecialItemsConfig := ⟨false, false, [], 0, []⟩

theorem C8_deterministic_witness :
    extract_filing [] [] C8cfg = extract_filing [] [] C8cfg :=
  C8_deterministic [] [] [] [] C8cfg C8cfg rfl rfl rfl

theorem C2_paren_negated_witness :
    (⟨strL "($23.5 million)",
        -(litOf (⟨true, strL "23", strL "5", Scale.million, 15⟩ : ParsedAmount)),
        Scale.million⟩ : AmountRecord) ∈ extract_monetary_amounts C2span ∧
    -(litOf (⟨true, strL "23", strL "5", Scale.million, 15⟩ : ParsedAmount)) ≤ 0 :=
  C2_paren_negated.1 C2span
    (strL "($23.5 million)", ⟨true, strL "23", strL "5", Scale.million, 15⟩)
    (by decide) (by decide)

end Edgar
